import Mathlib

/-!
Verification of the core of the `dunbrack` backbone-dependent rotamer
library (grid indexing, bilinear/circular interpolation, the eager
rotamer iterator, and the self-contained `atan2f` approximation).

Modelling conventions.
Finite `f32` values are modelled as exact rationals (every finite `f32`
is a rational number); `f32` rounding of arithmetic is not modelled.
The transcendental functions supplied by `libm` (`sinf`, `cosf`,
`atan2f`) are modelled as the exact real functions, so interpolated
mean angles live in `ℝ` while all other fields stay in `ℚ`.
Array indexing `table[i][j]`, which panics when out of bounds in the
source, is modelled by the `Option`-returning `getCell`; `build_iter`
therefore returns an `Option` and returning `none` models a panic.
The non-finite inputs admitted by `f32` (NaN and the infinities) are
modelled by the separate type `F32`, for which only the operations
appearing in `angle_to_grid` are defined.
-/

namespace Dunbrack

/-- Minimum angle on the grid in degrees (`grid.rs` `GRID_MIN`). -/
def GRID_MIN : ℚ := -180

/-- Step between consecutive grid points in degrees (`grid.rs` `GRID_STEP`). -/
def GRID_STEP : ℚ := 10

/-- Number of grid points along each axis (`grid.rs` `GRID_COUNT`). -/
def GRID_COUNT : ℕ := 37

/-- Rust `f32::clamp` on finite values: `min (max x lo) hi`. -/
def clampQ (x lo hi : ℚ) : ℚ := min (max x lo) hi

/-- Transcription of `grid.rs` `angle_to_grid`. The Rust cast
`shifted as usize` truncates toward zero and saturates below at 0,
which on the rationals is exactly `Nat.floor`; the saturation above at
`usize::MAX` cannot fire because `shifted ≤ 36` after the clamp. -/
def angle_to_grid (deg : ℚ) : ℕ × ℚ :=
  let shifted := (clampQ deg GRID_MIN (-GRID_MIN) + (-GRID_MIN)) * (1 / GRID_STEP)
  let lo := min ⌊shifted⌋₊ (GRID_COUNT - 2)
  (lo, shifted - (lo : ℚ))

/-- Transcription of `rotamer.rs` `Rotamer<N>` as stored in the grid
tables: all fields are finite `f32` data, hence rationals here; the
`u8` bin labels are modelled as naturals (they are only ever copied). -/
structure Rotamer (N : ℕ) where
  r : Fin N → ℕ
  prob : ℚ
  chi_mean : Fin N → ℚ
  chi_sigma : Fin N → ℚ

/-- Result type of interpolation: identical to `Rotamer` in the source
(the source reuses `Rotamer<N>`), except that the interpolated mean
angles pass through the transcendental circular mean and so are reals
in this model. -/
structure InterpRotamer (N : ℕ) where
  r : Fin N → ℕ
  prob : ℚ
  chi_mean : Fin N → ℝ
  chi_sigma : Fin N → ℚ

/-- Transcription of `interp.rs` `RotamerIter<N, R>`: the eagerly
computed items plus the cursor `idx`. -/
structure RotamerIter (N R : ℕ) where
  items : Fin R → InterpRotamer N
  idx : ℕ

/-- Transcription of `Iterator::next` for `RotamerIter`: when
`idx < R` return `items[idx]` and advance the cursor, else `None`.
The returned pair carries the advanced iterator state explicitly. -/
def RotamerIter.next {N R : ℕ} (it : RotamerIter N R) :
    Option (InterpRotamer N × RotamerIter N R) :=
  if h : it.idx < R then some (it.items ⟨it.idx, h⟩, ⟨it.items, it.idx + 1⟩) else none

/-- Transcription of `ExactSizeIterator::len` for `RotamerIter`:
`R - idx` (saturating natural subtraction, as in `usize`). -/
def RotamerIter.len {N R : ℕ} (it : RotamerIter N R) : ℕ := R - it.idx

/-- State of the iterator after `k` calls to `next` (a call on an
exhausted iterator returns `None` and leaves the state unchanged). -/
def RotamerIter.stepN {N R : ℕ} (it : RotamerIter N R) : ℕ → RotamerIter N R
  | 0 => it
  | k + 1 => ((it.stepN k).next.map Prod.snd).getD (it.stepN k)

/-- A per-residue grid table: `[[[Rotamer<N>; R]; 37]; 37]` in the
source. A residue kind is represented throughout by its dimensions
`N`, `R` together with its table. -/
abbrev GridTable (N R : ℕ) := Fin GRID_COUNT → Fin GRID_COUNT → Fin R → Rotamer N

/-- Rust array indexing `table[i][j]` with `usize` indices: panics
(modelled as `none`) when an index is out of bounds. -/
def getCell {N R : ℕ} (table : GridTable N R) (i j : ℕ) : Option (Fin R → Rotamer N) :=
  if h : i < GRID_COUNT ∧ j < GRID_COUNT then some (table ⟨i, h.1⟩ ⟨j, h.2⟩) else none

/-- The four bilinear weights w00, w10, w01, w11 of `build_iter`. -/
def wts (frac_phi frac_psi : ℚ) : Fin 4 → ℚ :=
  ![(1 - frac_phi) * (1 - frac_psi),
    frac_phi * (1 - frac_psi),
    (1 - frac_phi) * frac_psi,
    frac_phi * frac_psi]

/-- Transcription of `interp.rs` `bilinear`. -/
def bilinear (weights values : Fin 4 → ℚ) : ℚ :=
  weights 0 * values 0 + weights 1 * values 1
    + weights 2 * values 2 + weights 3 * values 3

/-- Degrees-to-radians factor (`interp.rs` `DEG_TO_RAD`), exact. -/
noncomputable def DEG_TO_RAD : ℝ := Real.pi / 180

/-- Radians-to-degrees factor (`interp.rs` `RAD_TO_DEG`), exact. -/
noncomputable def RAD_TO_DEG : ℝ := 180 / Real.pi

/-- Model of `libm::atan2f` as the exact mathematical two-argument
arctangent: the argument of the complex number `x + y i`, which lies
in `(-π, π]` and is `0` at the origin. -/
noncomputable def atan2R (y x : ℝ) : ℝ := Complex.arg (x + y * Complex.I)

/-- Transcription of `interp.rs` `circular_mean`, with the `libm`
sine, cosine and arctangent modelled as the exact real functions. -/
noncomputable def circular_mean (weights angles : Fin 4 → ℚ) : ℝ :=
  let sin_sum := ∑ i : Fin 4, (weights i : ℝ) * Real.sin ((angles i : ℝ) * DEG_TO_RAD)
  let cos_sum := ∑ i : Fin 4, (weights i : ℝ) * Real.cos ((angles i : ℝ) * DEG_TO_RAD)
  atan2R sin_sum cos_sum * RAD_TO_DEG

/-- The interpolated probability of rotamer slot `k` of `build_iter`
(body of the `prob` computation), split out so that it is computable. -/
def interpProb {N : ℕ} (w : Fin 4 → ℚ) (cs : Fin 4 → Rotamer N) : ℚ :=
  bilinear w fun c => (cs c).prob

/-- Body of the `core::array::from_fn` closure of `build_iter`: one
interpolated rotamer from the four corner entries at slot `k`,
before renormalization. The `r` key is copied from the first corner. -/
noncomputable def interpItem {N : ℕ} (w : Fin 4 → ℚ) (cs : Fin 4 → Rotamer N) :
    InterpRotamer N :=
  { r := (cs 0).r
    prob := interpProb w cs
    chi_mean := fun i => circular_mean w fun c => (cs c).chi_mean i
    chi_sigma := fun i => bilinear w fun c => (cs c).chi_sigma i }

/-- Renormalization step of `build_iter` (lines 164-173): every
probability is multiplied by `1 / prob_sum`. In Rust a zero or
non-finite sum silently yields non-finite probabilities (the debug
assertion is compiled out in release); in `ℚ` division by zero gives
zero, so claims about renormalization carry the spec precondition
`0 < prob_sum`. -/
def renormalize {N R : ℕ} (items : Fin R → InterpRotamer N) : Fin R → InterpRotamer N :=
  let prob_sum := ∑ k : Fin R, (items k).prob
  let inv := 1 / prob_sum
  fun k => { items k with prob := (items k).prob * inv }

/-- Transcription of `interp.rs` `build_iter`. Returns `none` exactly
when one of the four corner accesses is out of bounds (a panic in the
source); the theorems below show this never happens. -/
noncomputable def build_iter {N R : ℕ} (table : GridTable N R) (phi psi : ℚ) :
    Option (RotamerIter N R) :=
  let lp := angle_to_grid phi
  let lq := angle_to_grid psi
  let w := wts lp.2 lq.2
  (getCell table lp.1 lq.1).bind fun c0 =>
    (getCell table (lp.1 + 1) lq.1).bind fun c1 =>
      (getCell table lp.1 (lq.1 + 1)).bind fun c2 =>
        (getCell table (lp.1 + 1) (lq.1 + 1)).bind fun c3 =>
          some ⟨renormalize fun k => interpItem w ![c0 k, c1 k, c2 k, c3 k], 0⟩

/-- Modelled from the spec: section 4.4 — each of the 22 residue kinds
dispatches `rotamers(phi, psi)` to the interpolation engine with its
own static table (that per-kind glue lives in the generated
`tables.rs`, which is not among the sources). A residue kind is
represented here by its dimensions `N`, `R` and its table. -/
noncomputable def rotamers {N R : ℕ} (table : GridTable N R) (phi psi : ℚ) :
    Option (RotamerIter N R) :=
  build_iter table phi psi

/-- Clipped conversion of a natural index into `Fin GRID_COUNT`, used
only to state the closed forms of the corner accesses; the theorems
below show the clip never fires on indices produced by
`angle_to_grid`. -/
def finIdx (i : ℕ) : Fin GRID_COUNT :=
  ⟨min i (GRID_COUNT - 1), Nat.lt_succ_of_le (Nat.min_le_right i (GRID_COUNT - 1))⟩

/-- Closed form of the four corner cells fetched by `build_iter`
(order: (lo,lo), (lo+1,lo), (lo,lo+1), (lo+1,lo+1)). -/
def cornersAt {N R : ℕ} (table : GridTable N R) (phi psi : ℚ) :
    Fin 4 → Fin R → Rotamer N :=
  let lp := angle_to_grid phi
  let lq := angle_to_grid psi
  ![table (finIdx lp.1) (finIdx lq.1),
    table (finIdx (lp.1 + 1)) (finIdx lq.1),
    table (finIdx lp.1) (finIdx (lq.1 + 1)),
    table (finIdx (lp.1 + 1)) (finIdx (lq.1 + 1))]

/-- Sum of the `R` interpolated (pre-renormalization) probabilities of
a query — the `prob_sum` local of `build_iter`, in computable form. -/
def probSum {N R : ℕ} (table : GridTable N R) (phi psi : ℚ) : ℚ :=
  ∑ k : Fin R, interpProb (wts (angle_to_grid phi).2 (angle_to_grid psi).2)
    fun c => cornersAt table phi psi c k

/-- Total wrapper around `build_iter`, used to state properties of the
returned items; it agrees with `build_iter` because the latter never
returns `none`. -/
noncomputable def buildIterT {N R : ℕ} (table : GridTable N R) (phi psi : ℚ) :
    RotamerIter N R :=
  (build_iter table phi psi).getD ⟨fun _ => ⟨fun _ => 0, 0, fun _ => 0, fun _ => 0⟩, 0⟩

/-- Extended `f32` values: a finite value (exact rational), the two
infinities, or NaN. Only the operations appearing in `angle_to_grid`
are defined on it. -/
inductive F32 where
  | fin (q : ℚ)
  | posInf
  | negInf
  | nan

/-- Rust `f32::clamp(GRID_MIN, -GRID_MIN)` on extended values: NaN is
returned unchanged (both comparisons are false on NaN), the infinities
saturate to the respective bound. -/
def F32.clampGrid : F32 → F32
  | .fin q => .fin (clampQ q GRID_MIN (-GRID_MIN))
  | .posInf => .fin (-GRID_MIN)
  | .negInf => .fin GRID_MIN
  | .nan => .nan

/-- Addition of the finite constant `-GRID_MIN = 180.0`: NaN and the
infinities propagate. -/
def F32.add180 : F32 → F32
  | .fin q => .fin (q + (-GRID_MIN))
  | .posInf => .posInf
  | .negInf => .negInf
  | .nan => .nan

/-- Multiplication by the finite positive constant `1.0 / GRID_STEP`:
NaN and the infinities propagate. -/
def F32.mulInvStep : F32 → F32
  | .fin q => .fin (q * (1 / GRID_STEP))
  | .posInf => .posInf
  | .negInf => .negInf
  | .nan => .nan

/-- Largest value of `usize` (64-bit targets). -/
def USIZE_MAX : ℕ := 2 ^ 64 - 1

/-- Rust `as usize` saturating float-to-integer cast: truncation
toward zero, NaN to 0, saturation at 0 below and `usize::MAX` above
(on nonnegative values truncation toward zero is the floor, and on
negative values the saturation at 0 makes the result agree with
`Nat.floor`). -/
def F32.toUsize : F32 → ℕ
  | .fin q => min ⌊q⌋₊ USIZE_MAX
  | .posInf => USIZE_MAX
  | .negInf => 0
  | .nan => 0

/-- Subtraction of `lo as f32` (a small natural, hence exact): NaN and
the infinities propagate. -/
def F32.subNat : F32 → ℕ → F32
  | .fin q, n => .fin (q - (n : ℚ))
  | .posInf, _ => .posInf
  | .negInf, _ => .negInf
  | .nan, _ => .nan

/-- The computation of `angle_to_grid` carried out on extended `f32`
values, covering NaN and infinite inputs. -/
def angle_to_grid_f32 (deg : F32) : ℕ × F32 :=
  let shifted := deg.clampGrid.add180.mulInvStep
  let lo := min shifted.toUsize (GRID_COUNT - 2)
  (lo, shifted.subNat lo)

/-- Exact rational value of the `f32` constant `core::f32::consts::PI`. -/
def PI_F32 : ℚ := 13176795 / 4194304

/-- Exact rational value of the `f32` constant `FRAC_PI_2`. -/
def FRAC_PI_2_F32 : ℚ := 13176795 / 8388608

/-- Exact rational value of the `f32` constant `FRAC_PI_4`. -/
def FRAC_PI_4_F32 : ℚ := 13176795 / 16777216

/-- Exact rational value of the `f32` constant `SQRT_2`. -/
def SQRT_2_F32 : ℚ := 11863283 / 8388608

/-- Transcription of `math.rs` `TAN_PI_8 = SQRT_2 - 1.0` (exact, since
subtracting 1 from a value in [1, 2) is exact in `f32`). -/
def TAN_PI_8 : ℚ := SQRT_2_F32 - 1

/-- Rust `f32::copysign(v, y)`: the magnitude of `v` with the sign bit
of `y`. The sign bit is passed explicitly as `ysign` because on the
rationals it is not determined by the value at zero (`-0.0`). -/
def copysign (v : ℚ) (ysign : Bool) : ℚ := if ysign then -|v| else |v|

/-- Transcription of `math.rs` `atan2f`. A finite `f32` argument `y`
is modelled as its rational value together with its sign bit `ysign`
(distinguishable from the value only at zero); negating `y` in Rust
negates the rational and flips the bit. The algorithm reads `y` only
through `|y|` and the final `copysign`. -/
def atan2f (y x : ℚ) (ysign : Bool) : ℚ :=
  let ax := |x|
  let ay := |y|
  let swapped := ay > ax
  let t := min ax ay / max ax ay
  let s := if t > TAN_PI_8 then (t - 1) / (t + 1) else t
  let offset := if t > TAN_PI_8 then FRAC_PI_4_F32 else 0
  let s2 := s * s
  let p := s * (1 + s2 * (-(1 / 3) + s2 * (1 / 5 + s2 * (-(1 / 7)))))
  let r0 := p + offset
  let r1 := if swapped then FRAC_PI_2_F32 - r0 else r0
  copysign (if x < 0 then PI_F32 - r1 else r1) ysign

/-- Transcription of the atan2 algorithm as worded in spec section 4.2
(the refinement target for the claim that `atan2f` follows it): reduce
to `t = min(|x|,|y|)/max(|x|,|y|)`; when `t > tan(π/8)` substitute
`s = (t-1)/(t+1)` with offset π/4, else `s = t` with offset 0;
evaluate the odd polynomial `s(1 - s²/3 + s⁴/5 - s⁶/7)` in its
expanded form; add the offset, reflect via `π/2 - r` when the axes
were swapped (`|y| > |x|`), reflect via `π - r` when `x < 0`, and
apply the sign of `y`. -/
def atan2fSpec (y x : ℚ) (ysign : Bool) : ℚ :=
  let t := min |x| |y| / max |x| |y|
  let s := if t > TAN_PI_8 then (t - 1) / (t + 1) else t
  let offset := if t > TAN_PI_8 then FRAC_PI_4_F32 else 0
  let p := s * (1 - s ^ 2 / 3 + s ^ 4 / 5 - s ^ 6 / 7)
  let r0 := p + offset
  let r1 := if |y| > |x| then FRAC_PI_2_F32 - r0 else r0
  copysign (if x < 0 then PI_F32 - r1 else r1) ysign

/-- A small concrete grid table (one χ angle, two rotamers per cell)
used to instantiate the universally quantified theorems below at a
concrete residue-like input. -/
def sampleTable : GridTable 1 2 :=
  fun _ _ k => ⟨fun _ => k.val + 1, 1 / 2, fun _ => 30, fun _ => 5⟩

/-! Helper lemmas. -/

theorem clampQ_le_left {x lo hi : ℚ} (h : lo ≤ hi) : lo ≤ clampQ x lo hi :=
  le_min (le_max_right x lo) h

theorem clampQ_le_right (x lo hi : ℚ) : clampQ x lo hi ≤ hi :=
  min_le_right _ _

theorem angle_to_grid_eq (deg : ℚ) :
    angle_to_grid deg =
      (min ⌊(clampQ deg GRID_MIN (-GRID_MIN) + -GRID_MIN) * (1 / GRID_STEP)⌋₊ 35,
        (clampQ deg GRID_MIN (-GRID_MIN) + -GRID_MIN) * (1 / GRID_STEP)
          - (min ⌊(clampQ deg GRID_MIN (-GRID_MIN) + -GRID_MIN) * (1 / GRID_STEP)⌋₊ 35 : ℕ)) :=
  rfl

theorem shifted_nonneg (deg : ℚ) :
    0 ≤ (clampQ deg GRID_MIN (-GRID_MIN) + -GRID_MIN) * (1 / GRID_STEP) := by
  have h := @clampQ_le_left deg GRID_MIN (-GRID_MIN) (by norm_num [GRID_MIN])
  rw [GRID_MIN, GRID_STEP]
  rw [GRID_MIN] at h
  generalize hc : clampQ deg (-180) (- -180) = c at h ⊢
  nlinarith

theorem shifted_le (deg : ℚ) :
    (clampQ deg GRID_MIN (-GRID_MIN) + -GRID_MIN) * (1 / GRID_STEP) ≤ 36 := by
  have h := clampQ_le_right deg GRID_MIN (-GRID_MIN)
  rw [GRID_MIN, GRID_STEP]
  rw [GRID_MIN] at h
  generalize hc : clampQ deg (-180) (- -180) = c at h ⊢
  nlinarith

theorem angle_to_grid_lo_le (deg : ℚ) : (angle_to_grid deg).1 ≤ 35 := by
  rw [angle_to_grid_eq]
  exact Nat.min_le_right _ _

theorem angle_to_grid_frac_nonneg (deg : ℚ) : 0 ≤ (angle_to_grid deg).2 := by
  rw [angle_to_grid_eq]
  have h0 := shifted_nonneg deg
  have h1 : ((min ⌊(clampQ deg GRID_MIN (-GRID_MIN) + -GRID_MIN) * (1 / GRID_STEP)⌋₊ 35 : ℕ) : ℚ)
      ≤ (clampQ deg GRID_MIN (-GRID_MIN) + -GRID_MIN) * (1 / GRID_STEP) := by
    calc ((min ⌊(clampQ deg GRID_MIN (-GRID_MIN) + -GRID_MIN) * (1 / GRID_STEP)⌋₊ 35 : ℕ) : ℚ)
        ≤ ((⌊(clampQ deg GRID_MIN (-GRID_MIN) + -GRID_MIN) * (1 / GRID_STEP)⌋₊ : ℕ) : ℚ) := by
          exact_mod_cast Nat.cast_le.mpr (Nat.min_le_left _ _)
      _ ≤ _ := Nat.floor_le h0
  simp only
  linarith

theorem angle_to_grid_frac_le_one (deg : ℚ) : (angle_to_grid deg).2 ≤ 1 := by
  rw [angle_to_grid_eq]
  simp only
  set s := (clampQ deg GRID_MIN (-GRID_MIN) + -GRID_MIN) * (1 / GRID_STEP) with hs
  rcases le_or_lt ⌊s⌋₊ 35 with h | h
  · rw [Nat.min_eq_left h]
    have := Nat.lt_floor_add_one s
    push_cast at this ⊢
    linarith
  · rw [Nat.min_eq_right (by omega)]
    have := shifted_le deg
    rw [← hs] at this
    push_cast
    linarith

theorem getCell_eq {N R : ℕ} (table : GridTable N R) {i j : ℕ}
    (h1 : i < GRID_COUNT) (h2 : j < GRID_COUNT) :
    getCell table i j = some (table ⟨i, h1⟩ ⟨j, h2⟩) := by
  rw [getCell, dif_pos ⟨h1, h2⟩]

theorem finIdx_eq {i : ℕ} (h : i < GRID_COUNT) : finIdx i = ⟨i, h⟩ := by
  have hle : i ≤ GRID_COUNT - 1 := by
    rw [GRID_COUNT] at h ⊢; omega
  simp [finIdx, Nat.min_eq_left hle]

theorem lo_lt_count (deg : ℚ) : (angle_to_grid deg).1 < GRID_COUNT := by
  have := angle_to_grid_lo_le deg
  rw [GRID_COUNT]
  omega

theorem lo_succ_lt_count (deg : ℚ) : (angle_to_grid deg).1 + 1 < GRID_COUNT := by
  have := angle_to_grid_lo_le deg
  rw [GRID_COUNT]
  omega

theorem build_iter_eq {N R : ℕ} (table : GridTable N R) (phi psi : ℚ) :
    build_iter table phi psi =
      some ⟨renormalize fun k =>
        interpItem (wts (angle_to_grid phi).2 (angle_to_grid psi).2)
          fun c => cornersAt table phi psi c k, 0⟩ := by
  rw [build_iter]
  simp only [getCell_eq table (lo_lt_count phi) (lo_lt_count psi),
    getCell_eq table (lo_succ_lt_count phi) (lo_lt_count psi),
    getCell_eq table (lo_lt_count phi) (lo_succ_lt_count psi),
    getCell_eq table (lo_succ_lt_count phi) (lo_succ_lt_count psi),
    Option.some_bind]
  refine congrArg some (congrArg (fun f => RotamerIter.mk (renormalize f) 0) ?_)
  funext k
  congr 1
  funext c
  fin_cases c <;>
    simp [cornersAt, finIdx_eq (lo_lt_count phi), finIdx_eq (lo_lt_count psi),
      finIdx_eq (lo_succ_lt_count phi), finIdx_eq (lo_succ_lt_count psi)]

theorem buildIterT_eq {N R : ℕ} (table : GridTable N R) (phi psi : ℚ) :
    buildIterT table phi psi =
      ⟨renormalize fun k =>
        interpItem (wts (angle_to_grid phi).2 (angle_to_grid psi).2)
          fun c => cornersAt table phi psi c k, 0⟩ := by
  rw [buildIterT, build_iter_eq, Option.getD_some]

theorem renormalize_r {N R : ℕ} (items : Fin R → InterpRotamer N) (k : Fin R) :
    (renormalize items k).r = (items k).r := rfl

theorem renormalize_prob {N R : ℕ} (items : Fin R → InterpRotamer N) (k : Fin R) :
    (renormalize items k).prob = (items k).prob * (1 / ∑ j : Fin R, (items j).prob) := rfl

theorem renormalize_chi_mean {N R : ℕ} (items : Fin R → InterpRotamer N) (k : Fin R) :
    (renormalize items k).chi_mean = (items k).chi_mean := rfl

theorem renormalize_chi_sigma {N R : ℕ} (items : Fin R → InterpRotamer N) (k : Fin R) :
    (renormalize items k).chi_sigma = (items k).chi_sigma := rfl

theorem interpItem_r {N : ℕ} (w : Fin 4 → ℚ) (cs : Fin 4 → Rotamer N) :
    (interpItem w cs).r = (cs 0).r := rfl

theorem interpItem_prob {N : ℕ} (w : Fin 4 → ℚ) (cs : Fin 4 → Rotamer N) :
    (interpItem w cs).prob = interpProb w cs := rfl

theorem interpItem_chi_mean {N : ℕ} (w : Fin 4 → ℚ) (cs : Fin 4 → Rotamer N) (i : Fin N) :
    (interpItem w cs).chi_mean i = circular_mean w fun c => (cs c).chi_mean i := rfl

theorem interpItem_chi_sigma {N : ℕ} (w : Fin 4 → ℚ) (cs : Fin 4 → Rotamer N) (i : Fin N) :
    (interpItem w cs).chi_sigma i = bilinear w fun c => (cs c).chi_sigma i := rfl

theorem wts_nonneg {fp fq : ℚ} (h0p : 0 ≤ fp) (h1p : fp ≤ 1) (h0q : 0 ≤ fq) (h1q : fq ≤ 1)
    (i : Fin 4) : 0 ≤ wts fp fq i := by
  fin_cases i <;> simp [wts] <;> nlinarith

theorem wts_sum (fp fq : ℚ) : wts fp fq 0 + wts fp fq 1 + wts fp fq 2 + wts fp fq 3 = 1 := by
  simp only [wts, Matrix.cons_val_zero, Matrix.cons_val_one, Matrix.head_cons,
    Matrix.cons_val_two, Matrix.tail_cons, Matrix.cons_val_three]
  ring

theorem wts_zero : wts 0 0 = ![1, 0, 0, 0] := by
  funext i
  fin_cases i <;> norm_num [wts]

theorem bilinear_w1000 (v : Fin 4 → ℚ) : bilinear ![1, 0, 0, 0] v = v 0 := by
  simp [bilinear]

theorem bilinear_pos {w v : Fin 4 → ℚ} (hw : ∀ i, 0 ≤ w i)
    (hsum : w 0 + w 1 + w 2 + w 3 = 1) (hv : ∀ i, 0 < v i) : 0 < bilinear w v := by
  rw [bilinear]
  set m := min (min (v 0) (v 1)) (min (v 2) (v 3)) with hm
  have hm0 : 0 < m := by
    rw [hm]
    simp only [lt_min_iff]
    exact ⟨⟨hv 0, hv 1⟩, hv 2, hv 3⟩
  have h0 : m ≤ v 0 := le_trans (min_le_left _ _) (min_le_left _ _)
  have h1 : m ≤ v 1 := le_trans (min_le_left _ _) (min_le_right _ _)
  have h2 : m ≤ v 2 := le_trans (min_le_right _ _) (min_le_left _ _)
  have h3 : m ≤ v 3 := le_trans (min_le_right _ _) (min_le_right _ _)
  have k0 : w 0 * m ≤ w 0 * v 0 := mul_le_mul_of_nonneg_left h0 (hw 0)
  have k1 : w 1 * m ≤ w 1 * v 1 := mul_le_mul_of_nonneg_left h1 (hw 1)
  have k2 : w 2 * m ≤ w 2 * v 2 := mul_le_mul_of_nonneg_left h2 (hw 2)
  have k3 : w 3 * m ≤ w 3 * v 3 := mul_le_mul_of_nonneg_left h3 (hw 3)
  have heq : w 0 * m + w 1 * m + w 2 * m + w 3 * m = m := by
    calc w 0 * m + w 1 * m + w 2 * m + w 3 * m = (w 0 + w 1 + w 2 + w 3) * m := by ring
      _ = 1 * m := by rw [hsum]
      _ = m := one_mul m
  linarith

theorem next_isSome {N R : ℕ} (it : RotamerIter N R) :
    it.next.isSome = decide (it.idx < R) := by
  rcases Nat.lt_or_ge it.idx R with h | h
  · simp [RotamerIter.next, h]
  · have h2 : ¬it.idx < R := Nat.not_lt.mpr h
    simp [RotamerIter.next, h2]

theorem stepN_idx {N R : ℕ} (it : RotamerIter N R) (h : it.idx ≤ R) (k : ℕ) :
    (it.stepN k).idx = min (it.idx + k) R := by
  induction k with
  | zero =>
    rw [RotamerIter.stepN]
    omega
  | succ k ih =>
    rw [RotamerIter.stepN, RotamerIter.next]
    rcases Nat.lt_or_ge (it.stepN k).idx R with hlt | hge
    · rw [dif_pos hlt]
      simp only [Option.map_some', Option.getD_some]
      rw [ih] at hlt ⊢
      omega
    · rw [dif_neg (by omega)]
      simp only [Option.map_none', Option.getD_none]
      rw [ih] at hge ⊢
      omega

theorem circular_mean_bounds (w a : Fin 4 → ℚ) :
    -180 < circular_mean w a ∧ circular_mean w a ≤ 180 := by
  unfold circular_mean atan2R RAD_TO_DEG
  simp only
  set z := ((∑ i : Fin 4, (w i : ℝ) * Real.cos ((a i : ℝ) * DEG_TO_RAD) : ℝ) : ℂ)
    + (∑ i : Fin 4, (w i : ℝ) * Real.sin ((a i : ℝ) * DEG_TO_RAD) : ℝ) * Complex.I with hz
  have h1 := Complex.neg_pi_lt_arg z
  have h2 := Complex.arg_le_pi z
  have hpi := Real.pi_pos
  have hfrac : (0 : ℝ) < 180 / Real.pi := by positivity
  constructor
  · have hlt := mul_lt_mul_of_pos_right h1 hfrac
    have hneg : -Real.pi * (180 / Real.pi) = -180 := by
      field_simp
      ring
    linarith
  · have hle := mul_le_mul_of_nonneg_right h2 hfrac.le
    have hpos : Real.pi * (180 / Real.pi) = 180 := by
      field_simp
    linarith

theorem circular_mean_w1000 (a : Fin 4 → ℚ) (hlo : -180 < a 0) (hhi : a 0 ≤ 180) :
    circular_mean ![1, 0, 0, 0] a = (a 0 : ℝ) := by
  unfold circular_mean
  simp only
  have hsin : (∑ i : Fin 4, ((![1, 0, 0, 0] : Fin 4 → ℚ) i : ℝ)
        * Real.sin ((a i : ℝ) * DEG_TO_RAD))
      = Real.sin ((a 0 : ℝ) * DEG_TO_RAD) := by
    rw [Fin.sum_univ_four]
    norm_num
  have hcos : (∑ i : Fin 4, ((![1, 0, 0, 0] : Fin 4 → ℚ) i : ℝ)
        * Real.cos ((a i : ℝ) * DEG_TO_RAD))
      = Real.cos ((a 0 : ℝ) * DEG_TO_RAD) := by
    rw [Fin.sum_univ_four]
    norm_num
  rw [hsin, hcos, atan2R]
  have hpi := Real.pi_pos
  have hθ : (a 0 : ℝ) * DEG_TO_RAD ∈ Set.Ioc (-Real.pi) Real.pi := by
    have hlo2 : (-180 : ℝ) < (a 0 : ℝ) := by exact_mod_cast hlo
    have hhi2 : (a 0 : ℝ) ≤ 180 := by exact_mod_cast hhi
    rw [DEG_TO_RAD]
    constructor
    · have := mul_lt_mul_of_pos_right hlo2 (show (0:ℝ) < Real.pi / 180 by positivity)
      have heq : (-180 : ℝ) * (Real.pi / 180) = -Real.pi := by
        field_simp
        ring
      linarith
    · have := mul_le_mul_of_nonneg_right hhi2 (show (0:ℝ) ≤ Real.pi / 180 by positivity)
      have heq : (180 : ℝ) * (Real.pi / 180) = Real.pi := by field_simp
      linarith
  rw [Complex.ofReal_cos, Complex.ofReal_sin, Complex.arg_cos_add_sin_mul_I hθ,
    DEG_TO_RAD, RAD_TO_DEG]
  field_simp

theorem buildIterT_items {N R : ℕ} (table : GridTable N R) (phi psi : ℚ) :
    (buildIterT table phi psi).items =
      renormalize fun k =>
        interpItem (wts (angle_to_grid phi).2 (angle_to_grid psi).2)
          fun c => cornersAt table phi psi c k := by
  rw [buildIterT_eq]

theorem buildIterT_idx {N R : ℕ} (table : GridTable N R) (phi psi : ℚ) :
    (buildIterT table phi psi).idx = 0 := by
  rw [buildIterT_eq]

theorem interpProb_w1000 {N : ℕ} (cs : Fin 4 → Rotamer N) :
    interpProb ![1, 0, 0, 0] cs = (cs 0).prob := by
  rw [interpProb, bilinear_w1000]

theorem poly_eq (s : ℚ) :
    s * (1 + s * s * (-(1 / 3) + s * s * (1 / 5 + s * s * (-(1 / 7)))))
      = s * (1 - s ^ 2 / 3 + s ^ 4 / 5 - s ^ 6 / 7) := by
  ring

/-! Claim theorems. -/

/-- Claim C1: for every residue kind (any dimensions `N`, `R` and any
table) and every phi, psi, given the precondition that the sum of the
`R` bilinearly interpolated corner probabilities is (finite and)
strictly positive, after the renormalization step of `build_iter` the
probabilities of the `R` returned rotamer records sum to 1.0 within
1e-4 (here: exactly). -/
theorem C1_renormalized_sum {N R : ℕ} (table : GridTable N R) (phi psi : ℚ)
    (hS : 0 < probSum table phi psi) :
    |(∑ k : Fin R, ((buildIterT table phi psi).items k).prob) - 1| ≤ 1 / 10000 := by
  rw [buildIterT_items]
  simp only [renormalize_prob, interpItem_prob]
  rw [← Finset.sum_mul]
  have h : (∑ k : Fin R, interpProb (wts (angle_to_grid phi).2 (angle_to_grid psi).2)
      fun c => cornersAt table phi psi c k) = probSum table phi psi := rfl
  rw [h, mul_one_div, div_self (ne_of_gt hS)]
  norm_num

/-- Witness for C1: the hypothesis and conclusion hold at a concrete
table and query. -/
theorem C1_witness :
    0 < probSum sampleTable 0 0
    ∧ |(∑ k : Fin 2, ((buildIterT sampleTable 0 0).items k).prob) - 1| ≤ 1 / 10000 :=
  ⟨by with_unfolding_all decide,
    C1_renormalized_sum sampleTable 0 0 (by with_unfolding_all decide)⟩

/-- Claim C2: for every (finite) input `deg`, including out-of-range
values, `angle_to_grid` returns `lo ≤ 35` and `frac ∈ [0, 1]`;
consequently, for every phi and psi, the four corner accesses
performed by `build_iter` are valid accesses into the 37x37 table
(`getCell` succeeds on all four). -/
theorem C2_grid_bounds :
    (∀ deg : ℚ, (angle_to_grid deg).1 ≤ 35
      ∧ 0 ≤ (angle_to_grid deg).2 ∧ (angle_to_grid deg).2 ≤ 1)
    ∧ ∀ (N R : ℕ) (table : GridTable N R) (phi psi : ℚ),
        (getCell table (angle_to_grid phi).1 (angle_to_grid psi).1).isSome = true
        ∧ (getCell table ((angle_to_grid phi).1 + 1) (angle_to_grid psi).1).isSome = true
        ∧ (getCell table (angle_to_grid phi).1 ((angle_to_grid psi).1 + 1)).isSome = true
        ∧ (getCell table ((angle_to_grid phi).1 + 1) ((angle_to_grid psi).1 + 1)).isSome
            = true := by
  refine ⟨fun deg => ⟨angle_to_grid_lo_le deg, angle_to_grid_frac_nonneg deg,
    angle_to_grid_frac_le_one deg⟩, fun n r table phi psi => ?_⟩
  rw [getCell_eq table (lo_lt_count phi) (lo_lt_count psi),
    getCell_eq table (lo_succ_lt_count phi) (lo_lt_count psi),
    getCell_eq table (lo_lt_count phi) (lo_succ_lt_count psi),
    getCell_eq table (lo_succ_lt_count phi) (lo_succ_lt_count psi)]
  exact ⟨rfl, rfl, rfl, rfl⟩

/-- Claim C3: for every residue kind and every phi, psi, the iterator
returned by `rotamers` is the eagerly built one, `next` returns `some`
exactly on the first `R` calls and `none` afterwards, and `len`
initially reports `R`. -/
theorem C3_exactly_R {N R : ℕ} (table : GridTable N R) (phi psi : ℚ) :
    rotamers table phi psi = some (buildIterT table phi psi)
    ∧ (buildIterT table phi psi).len = R
    ∧ ∀ k : ℕ, ((buildIterT table phi psi).stepN k).next.isSome = decide (k < R) := by
  have hidx := buildIterT_idx table phi psi
  refine ⟨by rw [rotamers, build_iter_eq, buildIterT_eq], ?_, fun k => ?_⟩
  · rw [RotamerIter.len, hidx]
    omega
  · rw [next_isSome, stepN_idx _ (by rw [hidx]; exact Nat.zero_le R) k, hidx]
    exact decide_eq_decide.mpr (by omega)

/-- Claim C4: when both fractional offsets are exactly 0 (query on a
grid point), the bilinear weights collapse to `w00 = 1` and `0`
elsewhere, and every field of the computed output equals the raw
stored data of the first corner cell exactly, up to the mandatory
renormalization of the probabilities. The stored mean angles are
assumed to be in the documented range `(-180, 180]` (the data-model
invariant of the spec), and the probability sum to be positive. -/
theorem C4_grid_point_identity {N R : ℕ} (table : GridTable N R) (phi psi : ℚ)
    (hp : (angle_to_grid phi).2 = 0) (hq : (angle_to_grid psi).2 = 0)
    (hS : 0 < probSum table phi psi)
    (hrange : ∀ (k : Fin R) (i : Fin N),
      -180 < (cornersAt table phi psi 0 k).chi_mean i
      ∧ (cornersAt table phi psi 0 k).chi_mean i ≤ 180) :
    wts (angle_to_grid phi).2 (angle_to_grid psi).2 = ![1, 0, 0, 0]
    ∧ ∀ k : Fin R,
      ((buildIterT table phi psi).items k).r = (cornersAt table phi psi 0 k).r
      ∧ ((buildIterT table phi psi).items k).prob
          = (cornersAt table phi psi 0 k).prob * (1 / probSum table phi psi)
      ∧ (∀ i : Fin N, ((buildIterT table phi psi).items k).chi_mean i
          = ((cornersAt table phi psi 0 k).chi_mean i : ℝ))
      ∧ ∀ i : Fin N, ((buildIterT table phi psi).items k).chi_sigma i
          = (cornersAt table phi psi 0 k).chi_sigma i := by
  have hw : wts (angle_to_grid phi).2 (angle_to_grid psi).2 = ![1, 0, 0, 0] := by
    rw [hp, hq, wts_zero]
  have hitems := buildIterT_items table phi psi
  rw [hw] at hitems
  have hPS : probSum table phi psi = ∑ j : Fin R, (cornersAt table phi psi 0 j).prob := by
    unfold probSum
    rw [hp, hq, wts_zero]
    exact Finset.sum_congr rfl fun j _ => interpProb_w1000 _
  refine ⟨hw, fun k => ⟨?_, ?_, fun i => ?_, fun i => ?_⟩⟩
  · rw [hitems, renormalize_r, interpItem_r]
  · rw [hitems, renormalize_prob]
    simp only [interpItem_prob, interpProb_w1000]
    rw [hPS]
  · rw [hitems, renormalize_chi_mean]
    simp only [interpItem_chi_mean]
    exact circular_mean_w1000 _ (hrange k i).1 (hrange k i).2
  · rw [hitems, renormalize_chi_sigma]
    simp only [interpItem_chi_sigma]
    rw [bilinear_w1000]

/-- Witness for C4: all hypotheses hold at a concrete table and a
grid-aligned query, and the weights collapse there. -/
theorem C4_witness :
    ((angle_to_grid (0 : ℚ)).2 = 0 ∧ 0 < probSum sampleTable 0 0)
    ∧ wts (angle_to_grid (0 : ℚ)).2 (angle_to_grid (0 : ℚ)).2 = ![1, 0, 0, 0] :=
  ⟨⟨by with_unfolding_all decide, by with_unfolding_all decide⟩,
    (C4_grid_point_identity sampleTable 0 0 (by with_unfolding_all decide)
      (by with_unfolding_all decide) (by with_unfolding_all decide)
      (by with_unfolding_all decide)).1⟩

/-- Claim C5: `rotamers` is total — it never fails for any query: on
every finite input the four table accesses succeed and an iterator is
returned, and on every extended input (NaN and infinities included)
the grid index computed after the internal clamp stays within `[0,
35]`, so `lo + 1 ≤ 36` and no access can be out of bounds. -/
theorem C5_total_function :
    (∀ (N R : ℕ) (table : GridTable N R) (phi psi : ℚ),
      (rotamers table phi psi).isSome = true)
    ∧ ∀ deg : F32, (angle_to_grid_f32 deg).1 + 1 ≤ 36 := by
  constructor
  · intro n r table phi psi
    rw [rotamers, build_iter_eq]
    rfl
  · intro deg
    show min ((deg.clampGrid.add180).mulInvStep).toUsize (GRID_COUNT - 2) + 1 ≤ 36
    simp only [GRID_COUNT]
    omega

/-- Claim C6: determinism as a two-run property — two calls of
`rotamers` on identical inputs produce identical outputs, field by
field. -/
theorem C6_deterministic {N R : ℕ} (table : GridTable N R) (phi1 psi1 phi2 psi2 : ℚ)
    (hphi : phi1 = phi2) (hpsi : psi1 = psi2) :
    rotamers table phi1 psi1 = rotamers table phi2 psi2
    ∧ ∀ k : Fin R,
      ((buildIterT table phi1 psi1).items k).prob = ((buildIterT table phi2 psi2).items k).prob
      ∧ ((buildIterT table phi1 psi1).items k).chi_mean
          = ((buildIterT table phi2 psi2).items k).chi_mean
      ∧ ((buildIterT table phi1 psi1).items k).chi_sigma
          = ((buildIterT table phi2 psi2).items k).chi_sigma
      ∧ ((buildIterT table phi1 psi1).items k).r = ((buildIterT table phi2 psi2).items k).r := by
  subst hphi hpsi
  exact ⟨rfl, fun k => ⟨rfl, rfl, rfl, rfl⟩⟩

/-- Witness for C6 at a concrete table and query. -/
theorem C6_witness :
    rotamers sampleTable (-60) (-40) = rotamers sampleTable (-60) (-40) :=
  (C6_deterministic sampleTable (-60) (-40) (-60) (-40) rfl rfl).1

/-- Claim C7: every interpolated mean angle of every returned rotamer
lies in `(-180, 180]` — strictly above `-180` and at most `180` —
because it is produced by the two-argument arctangent. -/
theorem C7_chi_mean_range {N R : ℕ} (table : GridTable N R) (phi psi : ℚ)
    (k : Fin R) (i : Fin N) :
    -180 < ((buildIterT table phi psi).items k).chi_mean i
    ∧ ((buildIterT table phi psi).items k).chi_mean i ≤ 180 := by
  rw [buildIterT_items, renormalize_chi_mean]
  simp only [interpItem_chi_mean]
  exact circular_mean_bounds _ _

/-- Claim C8: for every query, if the stored `chi_sigma` values of the
four corner cells are all strictly positive, then every `chi_sigma` of
every returned interpolated rotamer is strictly positive. -/
theorem C8_chi_sigma_pos {N R : ℕ} (table : GridTable N R) (phi psi : ℚ)
    (hpos : ∀ (c : Fin 4) (k : Fin R) (i : Fin N),
      0 < (cornersAt table phi psi c k).chi_sigma i)
    (k : Fin R) (i : Fin N) :
    0 < ((buildIterT table phi psi).items k).chi_sigma i := by
  rw [buildIterT_items, renormalize_chi_sigma]
  simp only [interpItem_chi_sigma]
  exact bilinear_pos
    (wts_nonneg (angle_to_grid_frac_nonneg phi) (angle_to_grid_frac_le_one phi)
      (angle_to_grid_frac_nonneg psi) (angle_to_grid_frac_le_one psi))
    (wts_sum _ _) (fun c => hpos c k i)

/-- Witness for C8: the positivity hypothesis holds at a concrete
table and query, and the conclusion follows there. -/
theorem C8_witness :
    (∀ (c : Fin 4) (k : Fin 2) (i : Fin 1),
      0 < (cornersAt sampleTable 0 0 c k).chi_sigma i)
    ∧ 0 < ((buildIterT sampleTable 0 0).items 0).chi_sigma 0 :=
  ⟨by with_unfolding_all decide,
    C8_chi_sigma_pos sampleTable 0 0 (by with_unfolding_all decide) 0 0⟩

/-- Claim C9: for every input with `(x, y) ≠ (0, 0)`, the
self-contained `atan2f` follows exactly the algorithm worded in the
spec (argument reduction, half-angle substitution past `tan(π/8)`,
degree-7 odd polynomial, and the three sign/quadrant restorations);
in particular negating `y` (value and sign bit) negates the result,
for all inputs. -/
theorem C9_atan2f_algorithm :
    (∀ (y x : ℚ) (ysign : Bool), ¬(y = 0 ∧ x = 0) →
      atan2f y x ysign = atan2fSpec y x ysign)
    ∧ ∀ (y x : ℚ) (ysign : Bool), atan2f (-y) x (!ysign) = -atan2f y x ysign := by
  constructor
  · intro y x s hxy
    unfold atan2f atan2fSpec
    simp only [poly_eq]
  · intro y x s
    unfold atan2f
    simp only [abs_neg]
    cases s <;> simp [copysign]

/-- Witness for C9: the nonzero-input hypothesis holds at a concrete
point and the refinement holds there. -/
theorem C9_witness :
    ¬((1 : ℚ) = 0 ∧ (1 : ℚ) = 0) ∧ atan2f 1 1 false = atan2fSpec 1 1 false :=
  ⟨by with_unfolding_all decide,
    C9_atan2f_algorithm.1 1 1 false (by with_unfolding_all decide)⟩

/-- Claim C10: interpolation never alters the bin labels — the `r`
field of the k-th returned rotamer is copied verbatim from the first
corner cell `table[lo_phi][lo_psi][k]`. -/
theorem C10_bins_copied {N R : ℕ} (table : GridTable N R) (phi psi : ℚ) (k : Fin R) :
    ((buildIterT table phi psi).items k).r = (cornersAt table phi psi 0 k).r := by
  rw [buildIterT_items, renormalize_r, interpItem_r]

end Dunbrack
